import Mathlib

/-!
# Verification of the ConverseAgent turn-execution core

A shallow embedding, in Lean 4, of the core data model and operations of the
ConverseAgent repository (`src/converseagent`), together with theorems that
settle the specification claims about:

* `utils/utils.py`: `extract_xml_content` (delimiter tag extraction),
* `messages/assistant.py`: derived-field extraction in
  `AssistantMessage.model_post_init`,
* `agents/base/base.py`: the `BaseAgent` turn-execution loop (`invoke` /
  `ainvoke`), the stop-reason handlers (`_handle_tool_use`,
  `_ahandle_tool_use`, `_handle_end_turn`, terminal handlers),
  `_invoke_model` / `_ainvoke_model`,
* `context/management/retention.py`:
  `delete_tool_result_blocks_after_next_turn`,
* `memory_store/base.py`: `BaseMemoryStore.load_memory` / `save_memory`.

Python strings are modelled as `List Char` (with a `String` view where
convenient); Python dicts keyed by strings are modelled as association
lists with Python `dict.update` (insert-or-replace) semantics; raised
exceptions are modelled with `Except`.
-/

namespace ConverseAgent

/-! ## Python-level error values

Exceptions that can escape the embedded code.  `unboundLocal` models
Python's `UnboundLocalError`: reading a local variable that was never
assigned on the executed path. -/

inductive PyError where
  /-- UnboundLocalError: a local variable read before assignment. -/
  | unboundLocal
  /-- converseagent.utils.errors.MaxIterationsExceeded -/
  | maxIterationsExceeded
  /-- An exception raised by a tool body and propagated (async dispatch). -/
  | toolError (e : String)
  /-- A non-ContextWindowExceeded exception from the model transport. -/
  | modelError (e : String)
  /-- KeyError, as raised by BaseMemoryStore.load_memory. -/
  | keyError
  deriving DecidableEq, Repr

/-! ## `utils/utils.py` : `extract_xml_content`

```python
def extract_xml_content(text: str, tag_name: str) -> str | None:
    pattern = f"<{tag_name}>(.*?)</{tag_name}>"
    match = re.search(pattern, text, re.DOTALL)
    if match:
        return match.group(1).strip()
    else:
        return None
```

`re.search` with a lazy group and `DOTALL` finds the leftmost occurrence of
`<tag>` that is followed (anywhere after it) by `</tag>`, and the group is
the text between that `<tag>` and the first `</tag>` after it.  We embed
this directly: split the text at the first occurrence of the opening
delimiter, then split the remainder at the first occurrence of the closing
delimiter.  (The tag names used by the repository — `current_plan`,
`thinking`, `update_message`, `final_response` — contain no regex
metacharacters, so the literal-substring reading of the pattern is exact.)
-/

/-- Python `str.strip()` whitespace set, restricted to the ASCII whitespace
characters (the texts handled by the repository are ASCII). -/
def pySpace (c : Char) : Bool :=
  c = ' ' || c = '\t' || c = '\n' || c = '\x0d' || c = '\x0b' || c = '\x0c'

/-- Drop trailing characters satisfying `pySpace` (the right half of
Python `str.strip()`). -/
def dropTrailing : List Char → List Char
  | [] => []
  | c :: rest =>
    let r := dropTrailing rest
    if r = [] && pySpace c then [] else c :: r

/-- Python `str.strip()`: drop leading and trailing whitespace. -/
def pyStrip (l : List Char) : List Char :=
  dropTrailing (l.dropWhile pySpace)

/-- `pfxOf p l`: does the pattern `p` start the list `l`? -/
def pfxOf : List Char → List Char → Bool
  | [], _ => true
  | _ :: _, [] => false
  | a :: as, b :: bs => a = b && pfxOf as bs

/-- Split `l` at the first occurrence of the pattern `pat`:
returns `some (before, after)` with `l = before ++ pat ++ after` where the
occurrence is the leftmost one, or `none` when `pat` does not occur in
`l`.  This is `re.search`'s leftmost-match rule for a literal pattern. -/
def splitOnceAt (pat : List Char) : List Char → Option (List Char × List Char)
  | [] => if pat = [] then some ([], []) else none
  | c :: rest =>
    if pfxOf pat (c :: rest) then some ([], (c :: rest).drop pat.length)
    else
      match splitOnceAt pat rest with
      | some (pre, post) => some (c :: pre, post)
      | none => none

/-- The opening delimiter `<tag>`. -/
def openTag (tag : List Char) : List Char := '<' :: (tag ++ ['>'])

/-- The closing delimiter `</tag>`. -/
def closeTag (tag : List Char) : List Char := '<' :: '/' :: (tag ++ ['>'])

/-- `utils.extract_xml_content`, over `List Char`. -/
def extractXmlContent (text tag : List Char) : Option (List Char) :=
  match splitOnceAt (openTag tag) text with
  | none => none
  | some (_, afterOpen) =>
    match splitOnceAt (closeTag tag) afterOpen with
    | none => none
    | some (inner, _) => some (pyStrip inner)

/-- `utils.extract_xml_content` on `String`s. -/
def extract_xml_content (text tag : String) : Option String :=
  (extractXmlContent text.data tag.data).map fun l => ⟨l⟩

/-! ## Content blocks and messages

`content/`: every content block carries a `type` discriminator and a
free-form `metadata` dict.  Python dicts with string keys/values are
modelled as association lists; `"retention" in metadata and
metadata["retention"] == "after_next_turn"` becomes a `lookup`. -/

/-- A metadata dict (string keys and values). -/
abbrev Meta : Type := List (String × String)

/-- `"retention" in metadata and metadata["retention"] == "after_next_turn"`
(the test in `context/management/retention.py`). -/
def retainedAfterNextTurn (md : Meta) : Bool :=
  md.lookup "retention" = some "after_next_turn"

/-- A basic content block (text / image / document), the block kinds allowed
inside `tool_result_content` (`content/content.py`: `BasicContentBlock`).
Image and document payloads are opaque to the core, so they are collapsed
into `other`. -/
inductive BasicBlock where
  | text (metadata : Meta) (text : String)
  | other (metadata : Meta) (payload : String)
  deriving DecidableEq

/-- The metadata dict of a basic block. -/
def BasicBlock.metadata : BasicBlock → Meta
  | .text md _ => md
  | .other md _ => md

/-- A content block of a user or assistant message.

`toolUse` is `content/tool.py`'s `ToolUseContentBlock`
and `toolResult` its `ToolResultContentBlock`
(that file is not included under `src/`). Modelled from the spec:
`ToolUseContentBlock = {tool_use_id, tool_name, tool_input: mapping}` and
`ToolResultContentBlock = {tool_use_id, tool_result_content: ordered
sequence of basic content blocks}`, each with the `BaseContentBlock`
`metadata` dict and `type` discriminator (`"tool_use"` / `"tool_result"`). -/
inductive ContentBlock where
  | text (metadata : Meta) (text : String)
  | toolUse (metadata : Meta) (tool_use_id : String) (tool_name : String)
      (tool_input : List (String × String))
  | toolResult (metadata : Meta) (tool_use_id : String)
      (tool_result_content : List BasicBlock)
  | other (metadata : Meta) (payload : String)
  deriving DecidableEq

/-- The metadata dict of a content block. -/
def ContentBlock.metadata : ContentBlock → Meta
  | .text md _ => md
  | .toolUse md _ _ _ => md
  | .toolResult md _ _ => md
  | .other md _ => md

/-- The `type` discriminator string of a content block. -/
def ContentBlock.ctype : ContentBlock → String
  | .text _ _ => "text"
  | .toolUse _ _ _ _ => "tool_use"
  | .toolResult _ _ _ => "tool_result"
  | .other _ _ => "other"

/-- Message roles (`messages/base.py`; the loop only ever stores user and
assistant messages in memory). -/
inductive Role where
  | user
  | assistant
  deriving DecidableEq, Repr

/-- A message: a role plus an ordered list of content blocks
(`messages/base.py`: `BaseMessage`). -/
structure Message where
  role : Role
  content : List ContentBlock
  deriving DecidableEq

instance : Inhabited Message := ⟨{ role := .user, content := [] }⟩

/-- `UserMessage(text=s)`: the `validate_text` validator turns the
convenience `text` argument into a single `TextContentBlock` with empty
metadata (`messages/user.py`). -/
def mkUserTextMessage (s : String) : Message :=
  { role := .user, content := [.text [] s] }

/-! ## Tool responses and tools (`tools/tool_response.py`, `tools/base.py`) -/

/-- `ResponseStatus` enum. -/
inductive ResponseStatus where
  | SUCCESS
  | ERROR
  deriving DecidableEq, Repr

/-- `ResponseType` enum: its only member is `CONTENT`. -/
inductive ResponseType where
  | CONTENT
  deriving DecidableEq, Repr

/-- `BaseToolResponse`: a status, a type, and a content list. -/
structure ToolResponse where
  status : ResponseStatus
  rtype : ResponseType := .CONTENT
  content : List BasicBlock

/-- `TextToolResponse(status, text)`: content is a single
`TextContentBlock(text=text, metadata={})`. -/
def textToolResponse (status : ResponseStatus) (text : String) : ToolResponse :=
  { status := status, content := [.text [] text] }

/-- `NotFoundToolResponse()` = `TextToolResponse(ERROR, "Error: Tool not found.")`. -/
def notFoundToolResponse : ToolResponse :=
  textToolResponse .ERROR "Error: Tool not found."

/-- A tool as the dispatch sites see it: a `name` and `invoke` / `ainvoke`
bodies over the keyword-argument dict, which may raise (`.error`).
`BaseTool.ainvoke`'s default implementation calls `invoke`, but a tool may
override either, so both are fields. -/
structure Tool where
  name : String
  invoke : List (String × String) → Except String ToolResponse
  ainvoke : List (String × String) → Except String ToolResponse

/-- `for tool in self.tools: if tool_name == tool.name: ...` — the linear
scan over the agent's tool list; first match wins. -/
def findTool (tools : List Tool) (tool_name : String) : Option Tool :=
  tools.find? fun tool => tool_name = tool.name

/-! ## Stop reasons, responses, and the assistant message
(`models/stop_reason.py`, `models/response.py`, `messages/assistant.py`) -/

/-- The `StopReason` enum. -/
inductive StopReason where
  | TOOL_USE
  | END_TURN
  | MAX_TOKENS
  | STOP_SEQUENCE
  | GUARDRAIL_INTERVENED
  | CONTENT_FILTERED
  deriving DecidableEq, Repr

/-- The fields of `AssistantMessage` read by the loop and the derived
fields extracted by `model_post_init`: the content blocks, the `text`
field, and the four tag-extracted fields (`None` is `none`; the empty
string is `some ""`, which is distinct — Python truthiness separates both
from non-empty strings, not from each other). -/
structure AssistantMessage where
  content : List ContentBlock
  text : Option String
  current_plan : Option String := none
  update_message : Option String := none
  thinking : Option String := none
  final_response : Option String

/-- A raw Converse content block, as found in `message["content"]` of the
dict handed to `AssistantMessage(message=...)`: either a text block or a
`toolUse` block (other raw kinds are not consumed by `model_post_init`). -/
inductive RawBlock where
  | text (s : String)
  | toolUse (tool_use_id tool_name : String) (tool_input : List (String × String))

/-- `AssistantMessage.model_post_init`: walk `message["content"]` in order;
every `"text"` block is appended as a `TextContentBlock` and *overwrites*
`self.text` and the four extracted fields (so they reflect the last text
block); every `"toolUse"` block is appended as a `ToolUseContentBlock`.
Only `final_response` is carried here (the other three extracted fields
behave identically: an unconditional `extract_xml_content` assignment
followed by a self-assignment no-op). -/
def assistantFromRaw (raw : List RawBlock) : AssistantMessage :=
  raw.foldl
    (fun msg b =>
      match b with
      | .text s =>
          { msg with
            content := msg.content ++ [.text [] s]
            text := some s
            current_plan := extract_xml_content s "current_plan"
            thinking := extract_xml_content s "thinking"
            update_message := extract_xml_content s "update_message"
            final_response := extract_xml_content s "final_response" }
      | .toolUse id name input =>
          { msg with content := msg.content ++ [.toolUse [] id name input] })
    { content := [], text := none, final_response := none }

/-- What the model transport produces per call: the parsed assistant
message plus the stop reason (`models/response.py`, token counters and
request ids are not read by the loop's control flow). -/
structure ModelResponse where
  assistant_message : AssistantMessage
  stop_reason : StopReason

/-- Exceptions the model transport can raise into `_invoke_model`. -/
inductive ModelError where
  | contextWindowExceeded
  | other (e : String)

/-! ## Stop-reason handlers (`agents/base/base.py`) -/

/-- The `HandleStopResult` enum. -/
inductive HandleStopResult where
  | CONTINUE
  | END_TURN
  | ERROR
  deriving DecidableEq, Repr

/-- The dict a stop-reason handler returns: `{"status": ..., "body": ...}`.
The body is modelled by its `"text"` entry (`session_id` and
`cumulative_usage` do not affect the control flow or the claims). A handler
that returns no body yields `body = none`. -/
structure StopResult where
  status : HandleStopResult
  body : Option String := none
  deriving DecidableEq, Repr

/-- Python truthiness of an `str | None` value: `None` and `""` are falsy. -/
def pyTruthyStrOpt : Option String → Bool
  | none => false
  | some s => s ≠ ""

/-- The body of `_handle_tool_use`'s per-block dispatch: find the first
tool whose name matches; invoke it, catching any exception into
`TextToolResponse(ERROR, f"Error executing tool: {e}")`; if no tool
matches, `NotFoundToolResponse()`.  Both the SUCCESS and the ERROR handling
branches set `tool_result_content` to the response's content (the only
`ResponseType` is `CONTENT`). -/
def syncToolResponse (tools : List Tool) (tool_name : String)
    (tool_input : List (String × String)) : ToolResponse :=
  match findTool tools tool_name with
  | none => notFoundToolResponse
  | some tool =>
    match tool.invoke tool_input with
    | .ok r => r
    | .error e => textToolResponse .ERROR ("Error executing tool: " ++ e)

/-- The `for block in model_response.assistant_message.content` loop of
`_handle_tool_use`: each `ToolUseContentBlock` contributes one
`ToolResultContentBlock(tool_use_id=..., tool_result_content=...)` to the
tool-result `UserMessage`, in block order; other block kinds only log. -/
def syncToolUseBlocks (tools : List Tool) : List ContentBlock → List ContentBlock
  | [] => []
  | .toolUse _ id name input :: rest =>
      .toolResult [] id (syncToolResponse tools name input).content
        :: syncToolUseBlocks tools rest
  | _ :: rest => syncToolUseBlocks tools rest

/-- `_handle_tool_use`: build the combined tool-result `UserMessage`,
append it to memory (returned as the messages-to-append delta), and return
`{"status": CONTINUE}`. -/
def handle_tool_use (tools : List Tool) (assistant_content : List ContentBlock) :
    List Message × StopResult :=
  ([{ role := .user, content := syncToolUseBlocks tools assistant_content }],
   { status := .CONTINUE })

/-- `asyncio.gather(*tasks)` over already-scheduled tool tasks: if every
task succeeded, the list of `(tool_use_id, tool_response)` results in task
order; otherwise the first exception propagates (`ainvoke_tool` re-raises
tool exceptions instead of converting them). -/
def gatherTasks : List (String × Except String ToolResponse) →
    Except String (List (String × ToolResponse))
  | [] => .ok []
  | (id, .ok r) :: rest => (gatherTasks rest).map fun l => (id, r) :: l
  | (_, .error e) :: _ => .error e

/-- The `for block in ...` loop of `_ahandle_tool_use`.  The
`task_results = await asyncio.gather(*tasks)` call and the loop appending
one `ToolResultContentBlock` per gathered result sit *inside* the
`if isinstance(block, ToolUseContentBlock)` branch, so every tool-use block
re-gathers and re-appends all tasks accumulated so far; unmatched blocks
append their "Tool ... not found" result block directly. -/
def asyncToolUseBlocks (tools : List Tool) :
    List ContentBlock → List (String × Except String ToolResponse) →
    List ContentBlock → Except String (List ContentBlock)
  | [], _, acc => .ok acc
  | .toolUse _ id name input :: rest, tasks, acc =>
      match findTool tools name with
      | some tool =>
          let tasks := tasks ++ [(id, tool.ainvoke input)]
          match gatherTasks tasks with
          | .error e => .error e
          | .ok results =>
              asyncToolUseBlocks tools rest tasks
                (acc ++ results.map fun r =>
                  .toolResult [] r.1 r.2.content)
      | none =>
          let acc := acc ++
            [.toolResult [] id [.text [] ("Tool " ++ name ++ " not found")]]
          match gatherTasks tasks with
          | .error e => .error e
          | .ok results =>
              asyncToolUseBlocks tools rest tasks
                (acc ++ results.map fun r =>
                  .toolResult [] r.1 r.2.content)
  | _ :: rest, tasks, acc => asyncToolUseBlocks tools rest tasks acc

/-- `_ahandle_tool_use`: on success, append the combined tool-result
`UserMessage` to memory and return `{"status": CONTINUE}`; a tool exception
escapes the whole handler. -/
def ahandle_tool_use (tools : List Tool) (assistant_content : List ContentBlock) :
    Except PyError (List Message × StopResult) :=
  match asyncToolUseBlocks tools assistant_content [] [] with
  | .error e => .error (.toolError e)
  | .ok blocks =>
      .ok ([{ role := .user, content := blocks }], { status := .CONTINUE })

/-- `prompts/base.py`: `FINAL_RESPONSE_PROMPT` (the corrective re-prompt). -/
def FINAL_RESPONSE_PROMPT : String :=
  "\n<final_response> tags was not found. Review the original question and\nensure that you answer your final response in <final_response> tags.\n"

/-- `_handle_end_turn`: with `return_final_response_only=False`, terminate
with the full assistant text; otherwise terminate with the extracted
`final_response` when it is truthy (non-`None` and non-empty), else append
`UserMessage(text=FINAL_RESPONSE_PROMPT)` and continue. -/
def handle_end_turn (return_final_response_only : Bool)
    (msg : AssistantMessage) : List Message × StopResult :=
  if return_final_response_only = false then
    ([], { status := .END_TURN, body := msg.text })
  else if pyTruthyStrOpt msg.final_response && return_final_response_only then
    ([], { status := .END_TURN, body := msg.final_response })
  else
    ([mkUserTextMessage FINAL_RESPONSE_PROMPT], { status := .CONTINUE })

/-- `_handle_context_window_exceeded` (the default, overridable handler):
a terminal ERROR result with a descriptive body. -/
def handle_context_window_exceeded : StopResult :=
  { status := .ERROR, body := some "Input is too long for the model" }

/-- `_handle_max_output_tokens_exceeed` default. -/
def handle_max_output_tokens_exceeed : StopResult :=
  { status := .ERROR, body := some "Max output tokens exceeded for the model" }

/-- `_handle_stop_sequence` default: END_TURN with the assistant text. -/
def handle_stop_sequence (msg : AssistantMessage) : StopResult :=
  { status := .END_TURN, body := msg.text }

/-- `_handle_guardrail_intervened` default. -/
def handle_guardrail_intervened : StopResult :=
  { status := .END_TURN, body := some "Guardrail intervened" }

/-- `_handle_content_filtered` default. -/
def handle_content_filtered : StopResult :=
  { status := .ERROR, body := some "Content filtered by the model" }

/-- The agent configuration the dispatch depends on. -/
structure AgentConfig where
  tools : List Tool
  return_final_response_only : Bool := true

/-- `_handle_stop_reason` (the sync `match` over the stop reason).  Each
handler yields the messages it appends to memory plus its result dict. -/
def handle_stop_reason (cfg : AgentConfig) (resp : ModelResponse) :
    List Message × StopResult :=
  match resp.stop_reason with
  | .TOOL_USE => handle_tool_use cfg.tools resp.assistant_message.content
  | .END_TURN =>
      handle_end_turn cfg.return_final_response_only resp.assistant_message
  | .MAX_TOKENS => ([], handle_max_output_tokens_exceeed)
  | .STOP_SEQUENCE => ([], handle_stop_sequence resp.assistant_message)
  | .GUARDRAIL_INTERVENED => ([], handle_guardrail_intervened)
  | .CONTENT_FILTERED => ([], handle_content_filtered)

/-- `_ahandle_stop_reason`: identical to the sync dispatch except that the
TOOL_USE branch awaits `_ahandle_tool_use`, whose tool exceptions escape. -/
def ahandle_stop_reason (cfg : AgentConfig) (resp : ModelResponse) :
    Except PyError (List Message × StopResult) :=
  match resp.stop_reason with
  | .TOOL_USE => ahandle_tool_use cfg.tools resp.assistant_message.content
  | _ => .ok (handle_stop_reason cfg resp)

/-- `_invoke_model` / `_ainvoke_model`:

```python
try:
    model_response = self.model.invoke(model_request)
except ContextWindowExceeded:
    self._handle_context_window_exceeded()
return model_response
```

On `ContextWindowExceeded` the handler's `{"status": ERROR, ...}` dict is
computed and *discarded* (the call's return value is not used and the
method falls through), after which `return model_response` reads the local
that the failed `try` body never assigned — an `UnboundLocalError`.  Any
other transport exception propagates uncaught. -/
def invoke_model (transport : Except ModelError ModelResponse) :
    Except PyError ModelResponse :=
  match transport with
  | .ok r => .ok r
  | .error .contextWindowExceeded =>
      let _discarded := handle_context_window_exceeded
      .error .unboundLocal
  | .error (.other e) => .error (.modelError e)

/-- The assistant message as appended to memory. -/
def assistantToMessage (msg : AssistantMessage) : Message :=
  { role := .assistant, content := msg.content }

/-- The `while current_iteration < max_iterations` loop shared by `invoke`
and `ainvoke`.  `i` is `current_iteration`; `fuel` is
`max_iterations - current_iteration`, so the `while` condition
`current_iteration < max_iterations` is `fuel ≠ 0` (the top-level entry
points pass `fuel = max_iterations, i = 0`, and each pass decrements `fuel`
as it increments `i`, maintaining the correspondence).  `mem` is the
current memory, `stop_result` the current value of the `stop_result` local
(`none` before the first pass); `model k` is the transport's answer to the
`k`-th model call of this turn; `dispatch` is the stop-reason dispatch
(sync or async).

Per pass: invoke the model, append the assistant message to memory,
dispatch on the stop reason (appending the handler's message delta), then
`break` on END_TURN, `break` (after logging) on ERROR, and otherwise run
the completed-iteration hook and increment the counter.  After the
increment the code guards `if current_iteration > max_iterations:` — in
`invoke` the guard's body names `self._handle_max_iterations_exceeded`
without calling it (a no-op), in `ainvoke` it calls it, which raises
`MaxIterationsExceeded`; `raiseOnExceed` selects between the two.  When the
`while` condition fails, `return stop_result` returns the value left by
the last pass — or raises `UnboundLocalError` when the loop never ran. -/
def invokeLoopGo (cfg : AgentConfig) (model : Nat → Except ModelError ModelResponse)
    (dispatch : ModelResponse → Except PyError (List Message × StopResult))
    (raiseOnExceed : Bool) (max_iterations : Nat) :
    Nat → Nat → List Message → Option StopResult →
    Except PyError (StopResult × List Message)
  | 0, _i, mem, stop_result =>
    match stop_result with
    | some s => .ok (s, mem)
    | none => .error .unboundLocal
  | fuel + 1, i, mem, _stop_result =>
    match invoke_model (model i) with
    | .error e => .error e
    | .ok resp =>
      let mem := mem ++ [assistantToMessage resp.assistant_message]
      match dispatch resp with
      | .error e => .error e
      | .ok (delta, stop) =>
        let mem := mem ++ delta
        match stop.status with
        | .END_TURN => .ok (stop, mem)
        | .ERROR => .ok (stop, mem)
        | .CONTINUE =>
            if i + 1 > max_iterations && raiseOnExceed then
              .error .maxIterationsExceeded
            else
              invokeLoopGo cfg model dispatch raiseOnExceed max_iterations
                fuel (i + 1) mem (some stop)

/-- `BaseAgent.invoke(user_message, ..., max_iterations)` starting from an
empty memory: append the user message, then run the loop with the sync
dispatch (whose dead max-iterations guard is a no-op). -/
def invoke (cfg : AgentConfig) (model : Nat → Except ModelError ModelResponse)
    (user_message : Message) (max_iterations : Nat) :
    Except PyError (StopResult × List Message) :=
  invokeLoopGo cfg model (fun r => .ok (handle_stop_reason cfg r)) false
    max_iterations max_iterations 0 [user_message] none

/-- `BaseAgent.ainvoke`: identical, with the async dispatch and a
max-iterations guard that would raise (it is equally unreachable). -/
def ainvoke (cfg : AgentConfig) (model : Nat → Except ModelError ModelResponse)
    (user_message : Message) (max_iterations : Nat) :
    Except PyError (StopResult × List Message) :=
  invokeLoopGo cfg model (ahandle_stop_reason cfg) true
    max_iterations max_iterations 0 [user_message] none

/-- The memory state at the end of one completed loop iteration started
from memory `mem`: the model response's assistant message is appended
unconditionally, then the stop-reason handler appends its message delta
(the combined tool-result message, or the corrective re-prompt, or
nothing). -/
def iterEndMemory (cfg : AgentConfig) (resp : ModelResponse) (mem : List Message) :
    List Message :=
  (mem ++ [assistantToMessage resp.assistant_message]) ++
    (handle_stop_reason cfg resp).1

/-- The status the stop-reason handler returns for that iteration. -/
def iterStatus (cfg : AgentConfig) (resp : ModelResponse) : HandleStopResult :=
  (handle_stop_reason cfg resp).2.status

/-- The memory states observable at the end of a completed loop iteration
of `invoke`, starting from an empty memory to which the caller's user
message `u` was appended: the first iteration starts from `[u]`, and a
further iteration runs — with an arbitrary model response — whenever the
previous one resulted CONTINUE. -/
inductive IterEndState (cfg : AgentConfig) (u : Message) :
    List Message → HandleStopResult → Prop where
  | first (resp : ModelResponse) :
      IterEndState cfg u (iterEndMemory cfg resp [u]) (iterStatus cfg resp)
  | next (mem : List Message) (resp : ModelResponse) :
      IterEndState cfg u mem .CONTINUE →
      IterEndState cfg u (iterEndMemory cfg resp mem) (iterStatus cfg resp)

/-! ## Retention (`context/management/retention.py`) -/

/-- The list comprehension filtering `tool_result_content`: keep the nested
blocks whose metadata is not tagged `"retention": "after_next_turn"`. -/
def filterToolResultContent (blocks : List BasicBlock) : List BasicBlock :=
  blocks.filter fun b => !retainedAfterNextTurn b.metadata

/-- The `if content_block.type == "tool_result"` body: a kept block of
type `"tool_result"` has its `tool_result_content` replaced by the
filtered list; every other kept block is unchanged. -/
def processBlock : ContentBlock → ContentBlock
  | .toolResult md id inner => .toolResult md id (filterToolResultContent inner)
  | b => b

/-- The inner `for content_block in processed_message.content` loop: drop
tagged blocks and process each kept block. -/
def processContent : List ContentBlock → List ContentBlock
  | [] => []
  | b :: rest =>
    if retainedAfterNextTurn b.metadata then processContent rest
    else processBlock b :: processContent rest

/-- `delete_tool_result_blocks_after_next_turn`: deep-copy each message of
the list (pure here) and filter its content; every message of the input
list is processed. -/
def delete_tool_result_blocks_after_next_turn (messages : List Message) :
    List Message :=
  messages.map fun m => { m with content := processContent m.content }

/-! ## Memory store (`memory_store/base.py`) -/

/-- The `memory_index` dict: session id → memory.  Memories are message
lists (`memory/base.py`: `BaseMemory` wraps exactly its message list).
The dict is an association list with `dict` semantics: at most one entry
per key, insertion order preserved. -/
abbrev MemoryIndex : Type := List (String × List Message)

/-- `load_memory`: return the stored memory, or raise `KeyError` when the
session id is absent. -/
def load_memory (ix : MemoryIndex) (session_id : String) :
    Except PyError (List Message) :=
  match List.lookup session_id ix with
  | some m => .ok m
  | none => .error .keyError

/-- Python `dict.update({k: v})`: replace the value at `k` in place if `k`
is present, else append the new entry. -/
def dictUpdate (ix : MemoryIndex) (k : String) (v : List Message) : MemoryIndex :=
  match ix with
  | [] => [(k, v)]
  | (k₀, v₀) :: rest =>
    if k₀ = k then (k₀, v) :: rest
    else (k₀, v₀) :: dictUpdate rest k v

/-- `save_memory`: `self.memory_index.update({session_id: memory})` — an
unconditional upsert. -/
def save_memory (ix : MemoryIndex) (session_id : String) (memory : List Message) :
    MemoryIndex :=
  dictUpdate ix session_id memory

/-- A fresh `BaseMemoryStore()`: an empty index. -/
def emptyMemoryStore : MemoryIndex := []

/-- The store resulting from a sequence of `save_memory` calls against a
fresh store, in order. -/
def applySaves (ops : List (String × List Message)) : MemoryIndex :=
  ops.foldl (fun ix op => save_memory ix op.1 op.2) emptyMemoryStore

/-! ## Theorems

### Memory store (claim C9) -/

theorem lookup_dictUpdate_self (ix : MemoryIndex) (k : String) (v : List Message) :
    List.lookup k (dictUpdate ix k v) = some v := by
  induction ix with
  | nil => simp [dictUpdate]
  | cons hd tl ih =>
    obtain ⟨k₀, v₀⟩ := hd
    by_cases h : k₀ = k
    · subst h
      simp [dictUpdate]
    · have hbe : (k == k₀) = false := beq_false_of_ne (Ne.symm h)
      simp [dictUpdate, h, List.lookup, hbe, ih]

theorem lookup_dictUpdate_ne (ix : MemoryIndex) (k k' : String) (v : List Message)
    (h : k' ≠ k) :
    List.lookup k' (dictUpdate ix k v) = List.lookup k' ix := by
  have hbe : (k' == k) = false := beq_false_of_ne h
  induction ix with
  | nil => simp [dictUpdate, List.lookup, hbe]
  | cons hd tl ih =>
    obtain ⟨k₀, v₀⟩ := hd
    by_cases h₀ : k₀ = k
    · subst h₀
      simp [dictUpdate, List.lookup, hbe]
    · simp [dictUpdate, h₀, List.lookup, ih]

theorem lookup_foldl_saves (ops : List (String × List Message)) (ix : MemoryIndex)
    (sid : String) :
    List.lookup sid (ops.foldl (fun ix op => save_memory ix op.1 op.2) ix) = none ↔
      (sid ∉ ops.map Prod.fst ∧ List.lookup sid ix = none) := by
  induction ops generalizing ix with
  | nil => simp
  | cons op rest ih =>
    rw [List.foldl_cons, ih]
    by_cases h : sid = op.1
    · subst h
      simp [save_memory, lookup_dictUpdate_self]
    · simp only [save_memory, lookup_dictUpdate_ne _ _ _ _ h, List.map_cons,
        List.mem_cons]
      tauto

/-- **C9.** `save_memory(session_id, memory)` is an unconditional upsert
and `load_memory(session_id)` raises a NotFound-class error (`KeyError`)
exactly when the session id has never been saved: loading right after
saving any state returns the saved memory without error, and against a
store built from any sequence of saves, loading fails iff the id is not
among the saved ids. -/
theorem load_memory_save_memory_contract (ix : MemoryIndex)
    (ops : List (String × List Message)) (sid : String) (m : List Message) :
    load_memory (save_memory ix sid m) sid = .ok m ∧
    (load_memory (applySaves ops) sid = .error .keyError ↔
      sid ∉ ops.map Prod.fst) := by
  constructor
  · simp [load_memory, save_memory, lookup_dictUpdate_self]
  · have h := lookup_foldl_saves ops emptyMemoryStore sid
    have hnil : List.lookup sid emptyMemoryStore = none := rfl
    rw [hnil] at h
    simp only [and_true] at h
    unfold load_memory applySaves
    split
    · rename_i mm hl
      constructor
      · intro hbad
        simp at hbad
      · intro hmem
        rw [h.mpr hmem] at hl
        cases hl
    · rename_i hl
      exact ⟨fun _ => h.mp hl, fun _ => rfl⟩

/-! ### Retention transform (claims C7 and C8) -/

theorem processBlock_metadata (b : ContentBlock) :
    (processBlock b).metadata = b.metadata := by
  cases b <;> rfl

theorem filterToolResultContent_idem (l : List BasicBlock) :
    filterToolResultContent (filterToolResultContent l) =
      filterToolResultContent l := by
  simp [filterToolResultContent, List.filter_filter]

theorem processBlock_idem (b : ContentBlock) :
    processBlock (processBlock b) = processBlock b := by
  cases b <;> simp [processBlock, filterToolResultContent_idem]

theorem processContent_idem (l : List ContentBlock) :
    processContent (processContent l) = processContent l := by
  induction l with
  | nil => rfl
  | cons b rest ih =>
    by_cases h : retainedAfterNextTurn b.metadata = true
    · simp [processContent, h, ih]
    · have h2 : ¬ retainedAfterNextTurn (processBlock b).metadata = true := by
        rw [processBlock_metadata]
        exact h
      simp [processContent, h, h2, ih, processBlock_idem]

/-- **C8.** The retention transform is idempotent: applying
`delete_tool_result_blocks_after_next_turn` twice yields the same message
list as applying it once. -/
theorem delete_tool_result_blocks_after_next_turn_idem (messages : List Message) :
    delete_tool_result_blocks_after_next_turn
        (delete_tool_result_blocks_after_next_turn messages) =
      delete_tool_result_blocks_after_next_turn messages := by
  simp [delete_tool_result_blocks_after_next_turn, processContent_idem]

/-- **C7 counterexample.** The very newest (here: only) message of the
list is *not* exempt from the retention filter: its block tagged
`retention == "after_next_turn"` is removed by a single application, so
the transform does not leave the newest message untouched as claimed. -/
theorem retention_filters_newest_message :
    delete_tool_result_blocks_after_next_turn
        [{ role := .user,
           content := [.text [("retention", "after_next_turn")] "screenshot"] }] =
      [{ role := .user, content := [] }] ∧
    delete_tool_result_blocks_after_next_turn
        [{ role := .user,
           content := [.text [("retention", "after_next_turn")] "screenshot"] }] ≠
      [{ role := .user,
         content := [.text [("retention", "after_next_turn")] "screenshot"] }] := by
  constructor
  · rfl
  · decide

theorem mem_processContent {b : ContentBlock} :
    ∀ {l : List ContentBlock}, b ∈ processContent l →
      retainedAfterNextTurn b.metadata = false ∧
      (∀ md id inner, b = .toolResult md id inner →
        ∀ nb ∈ inner, retainedAfterNextTurn nb.metadata = false) := by
  intro l
  induction l with
  | nil => intro h; cases h
  | cons hd rest ih =>
    intro hmem
    by_cases htag : retainedAfterNextTurn hd.metadata = true
    · rw [processContent, if_pos htag] at hmem
      exact ih hmem
    · rw [processContent, if_neg htag] at hmem
      rcases List.mem_cons.mp hmem with hb | hb
      · subst hb
        refine ⟨?_, ?_⟩
        · rw [processBlock_metadata]
          exact Bool.not_eq_true _ ▸ htag
        · intro md id inner heq nb hnb
          cases hd with
          | toolResult md₀ id₀ inner₀ =>
              simp only [processBlock] at heq
              injection heq with h₁ h₂ h₃
              subst h₃
              have := List.mem_filter.mp hnb
              simpa using this.2
          | text md₀ t₀ => simp [processBlock] at heq
          | toolUse md₀ a₀ b₀ c₀ => simp [processBlock] at heq
          | other md₀ p₀ => simp [processBlock] at heq
      · exact ih hb

/-- **C7 (amended).** The retention transform removes every content block
tagged `metadata.retention == "after_next_turn"` from *all* messages of
the list — including the very newest message, which is not exempt: the
output has one message per input message, and no message of the output
(in particular not the last one) retains a tagged top-level block, nor a
tagged nested block inside a kept tool-result block. -/
theorem delete_tool_result_blocks_removes_all_tagged (messages : List Message) :
    (delete_tool_result_blocks_after_next_turn messages).length = messages.length ∧
    ∀ m ∈ delete_tool_result_blocks_after_next_turn messages,
      ∀ b ∈ m.content,
        retainedAfterNextTurn b.metadata = false ∧
        (∀ md id inner, b = .toolResult md id inner →
          ∀ nb ∈ inner, retainedAfterNextTurn nb.metadata = false) := by
  constructor
  · simp [delete_tool_result_blocks_after_next_turn]
  · intro m hm b hb
    rw [delete_tool_result_blocks_after_next_turn] at hm
    obtain ⟨m₀, _, rfl⟩ := List.mem_map.mp hm
    exact mem_processContent hb

/-! ### Tool dispatch (claims C2 and C3) -/

/-- **C2 (code evaluation at the failing input).** For an assistant message
with two tool-use blocks `a1, a2`, both matching registered tools: the sync
dispatch produces one `ToolResultContentBlock` per `tool_use_id` in order
`[a1, a2]`, but the async dispatch — whose `asyncio.gather` call sits
inside the per-block loop — re-appends all previously gathered results at
each tool-use block, producing `[a1, a1, a2]`: the combined tool-result
message duplicates `a1` instead of holding exactly one block per id. -/
theorem async_tool_dispatch_duplicates_results :
    handle_tool_use
        [⟨"t1", fun _ => .ok (textToolResponse .SUCCESS "r1"),
               fun _ => .ok (textToolResponse .SUCCESS "r1")⟩,
         ⟨"t2", fun _ => .ok (textToolResponse .SUCCESS "r2"),
               fun _ => .ok (textToolResponse .SUCCESS "r2")⟩]
        [.toolUse [] "a1" "t1" [], .toolUse [] "a2" "t2" []] =
      ([{ role := .user,
          content := [.toolResult [] "a1" [.text [] "r1"],
                      .toolResult [] "a2" [.text [] "r2"]] }],
       { status := .CONTINUE }) ∧
    ahandle_tool_use
        [⟨"t1", fun _ => .ok (textToolResponse .SUCCESS "r1"),
               fun _ => .ok (textToolResponse .SUCCESS "r1")⟩,
         ⟨"t2", fun _ => .ok (textToolResponse .SUCCESS "r2"),
               fun _ => .ok (textToolResponse .SUCCESS "r2")⟩]
        [.toolUse [] "a1" "t1" [], .toolUse [] "a2" "t2" []] =
      .ok ([{ role := .user,
              content := [.toolResult [] "a1" [.text [] "r1"],
                          .toolResult [] "a1" [.text [] "r1"],
                          .toolResult [] "a2" [.text [] "r2"]] }],
           { status := .CONTINUE }) :=
  ⟨rfl, rfl⟩

/-- **C3 counterexample.** In the async dispatch a raising tool's exception
propagates out of `_ahandle_tool_use` (the inner `ainvoke_tool` re-raises
and `asyncio.gather` forwards it), aborting the turn instead of being
converted to an in-band error `ToolResultContentBlock`. -/
theorem async_tool_exception_propagates :
    ahandle_tool_use
        [⟨"bad", fun _ => .error "boom", fun _ => .error "boom"⟩]
        [.toolUse [] "a1" "bad" []] =
      .error (.toolError "boom") :=
  rfl

theorem gatherTasks_error_of_append (ts : List (String × Except String ToolResponse))
    (id : String) (e : String) :
    ∃ x, gatherTasks (ts ++ [(id, .error e)]) = .error x := by
  induction ts with
  | nil => exact ⟨e, rfl⟩
  | cons hd rest ih =>
    obtain ⟨id₀, r₀⟩ := hd
    cases r₀ with
    | ok r =>
        obtain ⟨x, hx⟩ := ih
        refine ⟨x, ?_⟩
        have hx2 : gatherTasks (rest.append [(id, Except.error e)]) = .error x := hx
        simp only [List.cons_append, gatherTasks, hx2]
        rfl
    | error e₀ => exact ⟨e₀, rfl⟩

theorem syncToolUseBlocks_mem_of_raising (tools : List Tool)
    (md : Meta) (id name : String) (input : List (String × String))
    (tool : Tool) (e : String)
    (hfind : findTool tools name = some tool)
    (hraise : tool.invoke input = .error e) :
    ∀ (blocks : List ContentBlock), ContentBlock.toolUse md id name input ∈ blocks →
      ContentBlock.toolResult [] id [.text [] ("Error executing tool: " ++ e)] ∈
        syncToolUseBlocks tools blocks := by
  intro blocks
  induction blocks with
  | nil => intro h; cases h
  | cons hd rest ih =>
    intro hmem
    rcases List.mem_cons.mp hmem with hb | hb
    · subst hb
      simp only [syncToolUseBlocks, syncToolResponse, hfind, hraise,
        textToolResponse]
      exact List.mem_cons_self _ _
    · cases hd with
      | toolUse md' id' name' input' =>
          simp only [syncToolUseBlocks]
          exact List.mem_cons_of_mem _ (ih hb)
      | text md' t' => simp only [syncToolUseBlocks]; exact ih hb
      | toolResult md' id' inner' => simp only [syncToolUseBlocks]; exact ih hb
      | other md' p' => simp only [syncToolUseBlocks]; exact ih hb

theorem asyncToolUseBlocks_error_of_raising (tools : List Tool)
    (md : Meta) (id name : String) (input : List (String × String))
    (tool : Tool) (e : String)
    (hfind : findTool tools name = some tool)
    (hraise : tool.ainvoke input = .error e) :
    ∀ (blocks : List ContentBlock), ContentBlock.toolUse md id name input ∈ blocks →
      ∀ tasks acc res, asyncToolUseBlocks tools blocks tasks acc ≠ .ok res := by
  intro blocks
  induction blocks with
  | nil => intro h; cases h
  | cons hd rest ih =>
    intro hmem tasks acc res
    rcases List.mem_cons.mp hmem with hb | hb
    · subst hb
      simp only [asyncToolUseBlocks, hfind, hraise]
      obtain ⟨x, hx⟩ := gatherTasks_error_of_append tasks id e
      simp [hx]
    · cases hd with
      | toolUse md' id' name' input' =>
          simp only [asyncToolUseBlocks]
          cases hfind' : findTool tools name' with
          | some t' =>
              simp only [hfind']
              cases hg : gatherTasks (tasks ++ [(id', t'.ainvoke input')]) with
              | error e' => simp [hg]
              | ok results =>
                  simp only [hg]
                  exact ih hb _ _ _
          | none =>
              simp only [hfind']
              cases hg : gatherTasks tasks with
              | error e' => simp [hg]
              | ok results =>
                  simp only [hg]
                  exact ih hb _ _ _
      | text md' t' => simp only [asyncToolUseBlocks]; exact ih hb _ _ _
      | toolResult md' id' inner' =>
          simp only [asyncToolUseBlocks]
          exact ih hb _ _ _
      | other md' p' => simp only [asyncToolUseBlocks]; exact ih hb _ _ _

/-- **C3 (amended).** A tool exception is caught and converted to an
in-band error `ToolResultContentBlock` for its `tool_use_id` *in the sync
dispatch only* (which then continues the turn normally); in the async
dispatch the exception is re-raised and propagates out of the dispatch,
aborting the whole fan-out for that iteration. -/
theorem tool_exception_handling (tools : List Tool) (content : List ContentBlock)
    (md : Meta) (id name : String) (input : List (String × String))
    (tool : Tool) (e : String)
    (hmem : ContentBlock.toolUse md id name input ∈ content)
    (hfind : findTool tools name = some tool) :
    (tool.invoke input = .error e →
      ContentBlock.toolResult [] id [.text [] ("Error executing tool: " ++ e)] ∈
        (handle_tool_use tools content).1.headI.content ∧
      (handle_tool_use tools content).2 = { status := .CONTINUE }) ∧
    (tool.ainvoke input = .error e →
      ∀ res, ahandle_tool_use tools content ≠ .ok res) := by
  constructor
  · intro hraise
    exact ⟨syncToolUseBlocks_mem_of_raising tools md id name input tool e
        hfind hraise content hmem, rfl⟩
  · intro hraise res
    have h := asyncToolUseBlocks_error_of_raising tools md id name input tool e
        hfind hraise content hmem [] []
    rw [ahandle_tool_use]
    cases hres : asyncToolUseBlocks tools content [] [] with
    | error e' => simp
    | ok blocks => exact absurd hres (h blocks)

/-- Witness for C3's amended theorem at a concrete input. -/
theorem tool_exception_handling_witness :
    ContentBlock.toolResult [] "a1" [.text [] "Error executing tool: boom"] ∈
      (handle_tool_use
        [⟨"bad", fun _ => .error "boom", fun _ => .error "boom"⟩]
        [.toolUse [] "a1" "bad" []]).1.headI.content ∧
    ∀ res, ahandle_tool_use
        [⟨"bad", fun _ => .error "boom", fun _ => .error "boom"⟩]
        [.toolUse [] "a1" "bad" []] ≠ .ok res :=
  ⟨((tool_exception_handling
      [⟨"bad", fun _ => .error "boom", fun _ => .error "boom"⟩]
      [.toolUse [] "a1" "bad" []] [] "a1" "bad" []
      ⟨"bad", fun _ => .error "boom", fun _ => .error "boom"⟩ "boom"
      (List.mem_singleton.mpr rfl) rfl).1 rfl).1,
   (tool_exception_handling
      [⟨"bad", fun _ => .error "boom", fun _ => .error "boom"⟩]
      [.toolUse [] "a1" "bad" []] [] "a1" "bad" []
      ⟨"bad", fun _ => .error "boom", fun _ => .error "boom"⟩ "boom"
      (List.mem_singleton.mpr rfl) rfl).2 rfl⟩

/-! ### Context-window-exceeded handling (claim C4) -/

/-- **C4 (code evaluation at the failing input).** When the model raises
`ContextWindowExceeded`, `_invoke_model` catches it, computes the default
handler's terminal ERROR dict but *discards* it (the call's value is not
returned), and then crashes on `return model_response` with
`UnboundLocalError`; `invoke` therefore propagates a crash to the caller
instead of returning the handler's `{status: ERROR, body: ...}` result. -/
theorem context_window_exceeded_crashes :
    invoke_model (.error .contextWindowExceeded) = .error .unboundLocal ∧
    handle_context_window_exceeded =
      { status := .ERROR, body := some "Input is too long for the model" } ∧
    invoke { tools := [] } (fun _ => .error .contextWindowExceeded)
        (mkUserTextMessage "Hi") 10 =
      .error .unboundLocal :=
  ⟨rfl, rfl, rfl⟩

/-! ### END_TURN final-response gating (claim C5) -/

/-- **C5 counterexample.** For the assistant text
`<final_response></final_response>` the tag *is* extractable (extraction
yields `some ""`), yet `_handle_end_turn` with
`return_final_response_only=True` appends the corrective re-prompt and
returns CONTINUE instead of terminating with the extracted (empty) body:
the truthiness test `final_response and return_final_response_only` treats
the extracted empty string like an absent tag. -/
theorem empty_final_response_reprompts :
    extract_xml_content "<final_response></final_response>" "final_response" =
      some "" ∧
    (assistantFromRaw
        [.text "<final_response></final_response>"]).final_response = some "" ∧
    handle_end_turn true
        (assistantFromRaw [.text "<final_response></final_response>"]) =
      ([mkUserTextMessage FINAL_RESPONSE_PROMPT], { status := .CONTINUE }) :=
  ⟨rfl, rfl, rfl⟩

/-- **C5 (amended).** With `return_final_response_only=true`, on END_TURN
over an assistant message with text `t`: the turn terminates with status
END_TURN and body equal to the extracted `<final_response>` content exactly
when that extracted content is non-empty; when the tag is absent *or its
extracted content is empty*, the handler appends the corrective
`UserMessage` to memory and returns CONTINUE (a re-prompt, not a terminal
state). -/
theorem handle_end_turn_final_response_gating (t s : String) :
    (extract_xml_content t "final_response" = some s → s ≠ "" →
      handle_end_turn true (assistantFromRaw [.text t]) =
        ([], { status := .END_TURN, body := some s })) ∧
    ((extract_xml_content t "final_response" = none ∨
        extract_xml_content t "final_response" = some "") →
      handle_end_turn true (assistantFromRaw [.text t]) =
        ([mkUserTextMessage FINAL_RESPONSE_PROMPT], { status := .CONTINUE })) := by
  have hfr : (assistantFromRaw [.text t]).final_response =
      extract_xml_content t "final_response" := rfl
  constructor
  · intro h hs
    rw [handle_end_turn]
    rw [hfr, h]
    simp [pyTruthyStrOpt, hs]
  · intro h
    rw [handle_end_turn]
    rcases h with h | h <;> rw [hfr, h] <;> simp [pyTruthyStrOpt]

/-- Witness for C5's amended theorem at a concrete input. -/
theorem handle_end_turn_final_response_gating_witness :
    handle_end_turn true
        (assistantFromRaw [.text "<final_response>Hello!</final_response>"]) =
      ([], { status := .END_TURN, body := some "Hello!" }) :=
  (handle_end_turn_final_response_gating
      "<final_response>Hello!</final_response>" "Hello!").1 rfl (by decide)

/-- Witness for C7's amended theorem at a concrete input. -/
theorem delete_tool_result_blocks_removes_all_tagged_witness :
    (delete_tool_result_blocks_after_next_turn
        [{ role := .user, content := [.text [] "hi"] }]).length =
      ([{ role := .user, content := [.text [] "hi"] }] : List Message).length ∧
    retainedAfterNextTurn (ContentBlock.text [] "hi").metadata = false :=
  ⟨(delete_tool_result_blocks_removes_all_tagged _).1,
   (((delete_tool_result_blocks_removes_all_tagged
        [{ role := .user, content := [.text [] "hi"] }]).2
      { role := .user, content := [.text [] "hi"] } (by decide)
      (.text [] "hi") (by decide))).1⟩

/-! ### Iteration cap (claim C1) -/

theorem invokeLoopGo_all_continue (cfg : AgentConfig)
    (model : Nat → Except ModelError ModelResponse)
    (dispatch : ModelResponse → Except PyError (List Message × StopResult))
    (raiseOnExceed : Bool) (N : Nat)
    (htool : ∀ k, ∃ resp, model k = .ok resp ∧ resp.stop_reason = .TOOL_USE)
    (hdisp : ∀ k resp, model k = .ok resp → resp.stop_reason = .TOOL_USE →
      ∃ delta, dispatch resp = .ok (delta, { status := .CONTINUE })) :
    ∀ (fuel i : Nat) (mem : List Message) (prev : Option StopResult),
      fuel + i = N →
      (fuel = 0 → prev = some { status := .CONTINUE }) →
      ∃ mem2, invokeLoopGo cfg model dispatch raiseOnExceed N fuel i mem prev =
        .ok ({ status := .CONTINUE }, mem2) := by
  intro fuel
  induction fuel with
  | zero =>
      intro i mem prev _hsum hz
      rw [hz rfl]
      exact ⟨mem, rfl⟩
  | succ f ih =>
      intro i mem prev hsum _hz
      obtain ⟨resp, hm, hsr⟩ := htool i
      obtain ⟨delta, hd⟩ := hdisp i resp hm hsr
      have hguard : (decide (i + 1 > N) && raiseOnExceed) = false := by
        have : ¬ (i + 1 > N) := by omega
        simp [this]
      simp only [invokeLoopGo, hm, invoke_model, hd, hguard, Bool.false_eq_true,
        if_false]
      exact ih (i + 1) _ _ (by omega) (fun _ => rfl)

/-- **C1 (code evaluation / refutation).** For every `max_iterations = N ≥ 1`,
when the model returns stop reason `TOOL_USE` on every call, `invoke`
completes its `N` loop passes and then *returns normally* with the last
handler result `{"status": CONTINUE}` — `MaxIterationsExceeded` is never
raised, on no iteration: the guard `current_iteration > max_iterations`
after the increment can never hold (the `while` bound keeps the counter at
most `N`), and in `invoke` the guard's body does not even call the handler.
`ainvoke` behaves identically (shown for responses with empty content, so
that its tool dispatch succeeds). -/
theorem max_iterations_never_raised (cfg : AgentConfig)
    (model : Nat → Except ModelError ModelResponse) (u : Message) (N : Nat)
    (hN : 1 ≤ N)
    (htool : ∀ k, ∃ resp, model k = .ok resp ∧ resp.stop_reason = .TOOL_USE) :
    (∃ mem, invoke cfg model u N = .ok ({ status := .CONTINUE }, mem)) ∧
    ((∀ k resp, model k = .ok resp → resp.assistant_message.content = []) →
      ∃ mem, ainvoke cfg model u N = .ok ({ status := .CONTINUE }, mem)) := by
  constructor
  · refine invokeLoopGo_all_continue cfg model _ false N htool ?_ N 0 [u] none
      (by omega) (fun h => by exfalso; omega)
    intro k resp _hk hsr
    refine ⟨[⟨Role.user, syncToolUseBlocks cfg.tools resp.assistant_message.content⟩], ?_⟩
    simp [handle_stop_reason, hsr, handle_tool_use]
  · intro hempty
    refine invokeLoopGo_all_continue cfg model _ true N htool ?_ N 0 [u] none
      (by omega) (fun h => by exfalso; omega)
    intro k resp hk hsr
    have hc : resp.assistant_message.content = [] := hempty k resp hk
    refine ⟨[{ role := .user, content := [] }], ?_⟩
    simp [ahandle_stop_reason, hsr, ahandle_tool_use, hc, asyncToolUseBlocks]

/-- Witness for C1's theorem at `max_iterations = 1` with an
always-TOOL_USE model. -/
theorem max_iterations_never_raised_witness :
    (∃ mem, invoke { tools := [] }
        (fun _ => .ok ⟨⟨[], none, none, none, none, none⟩, .TOOL_USE⟩)
        (mkUserTextMessage "Hi") 1 = .ok ({ status := .CONTINUE }, mem)) ∧
    (∃ mem, ainvoke { tools := [] }
        (fun _ => .ok ⟨⟨[], none, none, none, none, none⟩, .TOOL_USE⟩)
        (mkUserTextMessage "Hi") 1 = .ok ({ status := .CONTINUE }, mem)) :=
  have h := max_iterations_never_raised { tools := [] }
      (fun _ => .ok ⟨⟨[], none, none, none, none, none⟩, .TOOL_USE⟩)
      (mkUserTextMessage "Hi") 1 (by decide)
      (fun _ => ⟨⟨⟨[], none, none, none, none, none⟩, .TOOL_USE⟩, rfl, rfl⟩)
  ⟨h.1, h.2 (fun k resp hk => by injection hk with h2; rw [← h2])⟩

/-! ### Memory alternation invariant (claim C6) -/

theorem handle_stop_reason_delta (cfg : AgentConfig) (resp : ModelResponse) :
    ((handle_stop_reason cfg resp).1 = [] ∧
      (handle_stop_reason cfg resp).2.status ≠ .CONTINUE) ∨
    (∃ m, (handle_stop_reason cfg resp).1 = [m] ∧ m.role = .user ∧
      (handle_stop_reason cfg resp).2.status = .CONTINUE) := by
  cases hsr : resp.stop_reason with
  | TOOL_USE =>
      right
      exact ⟨⟨Role.user, syncToolUseBlocks cfg.tools resp.assistant_message.content⟩,
        by simp [handle_stop_reason, hsr, handle_tool_use], rfl,
        by simp [handle_stop_reason, hsr, handle_tool_use]⟩
  | END_TURN =>
      cases hb : cfg.return_final_response_only with
      | false =>
          left
          constructor <;>
            simp [handle_stop_reason, hsr, handle_end_turn, hb]
      | true =>
          cases hp : pyTruthyStrOpt resp.assistant_message.final_response with
          | true =>
              left
              constructor <;>
                simp [handle_stop_reason, hsr, handle_end_turn, hb, hp]
          | false =>
              right
              refine ⟨mkUserTextMessage FINAL_RESPONSE_PROMPT, ?_, rfl, ?_⟩ <;>
                simp [handle_stop_reason, hsr, handle_end_turn, hb, hp]
  | MAX_TOKENS =>
      left
      constructor <;> simp [handle_stop_reason, hsr, handle_max_output_tokens_exceeed]
  | STOP_SEQUENCE =>
      left
      constructor <;> simp [handle_stop_reason, hsr, handle_stop_sequence]
  | GUARDRAIL_INTERVENED =>
      left
      constructor <;> simp [handle_stop_reason, hsr, handle_guardrail_intervened]
  | CONTENT_FILTERED =>
      left
      constructor <;> simp [handle_stop_reason, hsr, handle_content_filtered]

theorem iterEnd_preserves_alternation (cfg : AgentConfig) (resp : ModelResponse)
    (mem : List Message)
    (halt : List.Chain' (fun a b => a ≠ b) (mem.map Message.role))
    (hlast : (mem.map Message.role).getLast? = some .user) :
    List.Chain' (fun a b => a ≠ b) ((iterEndMemory cfg resp mem).map Message.role) ∧
    (iterStatus cfg resp = .CONTINUE →
      ((iterEndMemory cfg resp mem).map Message.role).getLast? = some .user) := by
  rcases handle_stop_reason_delta cfg resp with ⟨hd, hs⟩ | ⟨m, hd, hrole, hs⟩
  · rw [iterEndMemory, hd, List.append_nil]
    constructor
    · rw [List.map_append]
      refine halt.append (by simp) ?_
      intro x hx y hy
      rw [hlast] at hx
      simp at hx hy
      subst hx
      subst hy
      simp [assistantToMessage]
    · intro hcont
      exact absurd hcont hs
  · rw [iterEndMemory, hd]
    rw [List.append_assoc, List.map_append]
    constructor
    · refine halt.append ?_ ?_
      · simp [assistantToMessage, hrole]
      · intro x hx y hy
        rw [hlast] at hx
        simp at hx hy
        subst hx
        subst hy
        simp [assistantToMessage]
    · intro _
      simp only [List.map_append, List.map_cons, List.map_nil]
      rw [← List.append_assoc, List.getLast?_concat]
      rw [hrole]

/-- **C6.** Starting from an empty memory to which the caller's user
message is appended, every memory state reached at the end of a completed
loop iteration — with the combined tool-result message and the corrective
re-prompt message counting as user turns — has strictly alternating
user/assistant roles. -/
theorem memory_alternates_user_assistant (cfg : AgentConfig) (u : Message)
    (mem : List Message) (st : HandleStopResult)
    (hu : u.role = .user)
    (hreach : IterEndState cfg u mem st) :
    List.Chain' (fun a b => a ≠ b) (mem.map Message.role) := by
  have key : ∀ mem st, IterEndState cfg u mem st →
      List.Chain' (fun a b => a ≠ b) (mem.map Message.role) ∧
      (st = .CONTINUE → ((mem.map Message.role)).getLast? = some .user) := by
    intro mem st h
    induction h with
    | first resp =>
        exact iterEnd_preserves_alternation cfg resp [u] (by simp)
          (by simp [hu])
    | next mem' resp hprev ih =>
        exact iterEnd_preserves_alternation cfg resp mem' ih.1 (ih.2 rfl)
  exact (key mem st hreach).1

/-- Witness for C6's theorem at a concrete reachable state. -/
theorem memory_alternates_user_assistant_witness :
    (mkUserTextMessage "Hi").role = .user ∧
    List.Chain' (fun a b => a ≠ b)
      ((iterEndMemory { tools := [] }
          ⟨⟨[], none, none, none, none, none⟩, .END_TURN⟩
          [mkUserTextMessage "Hi"]).map Message.role) :=
  ⟨rfl,
   memory_alternates_user_assistant { tools := [] } (mkUserTextMessage "Hi") _ _
     rfl (IterEndState.first ⟨⟨[], none, none, none, none, none⟩, .END_TURN⟩)⟩

/-! ### Delimiter-tag extraction (claim C10) -/

theorem pfxOf_iff : ∀ (p l : List Char), pfxOf p l = true ↔ ∃ t, l = p ++ t
  | [], l => by simp [pfxOf]
  | a :: as, [] => by simp [pfxOf]
  | a :: as, b :: bs => by
      simp only [pfxOf, Bool.and_eq_true, decide_eq_true_eq, List.cons_append]
      constructor
      · rintro ⟨rfl, h⟩
        obtain ⟨t, rfl⟩ := (pfxOf_iff as bs).mp h
        exact ⟨t, rfl⟩
      · rintro ⟨t, ht⟩
        injection ht with h1 h2
        subst h1
        exact ⟨rfl, (pfxOf_iff as bs).mpr ⟨t, h2⟩⟩

theorem splitOnceAt_eq (pat : List Char) :
    ∀ (l pre post : List Char), splitOnceAt pat l = some (pre, post) →
      l = pre ++ pat ++ post := by
  intro l
  induction l with
  | nil =>
      intro pre post h
      rw [splitOnceAt] at h
      split at h
      · rename_i hp
        injection h with h1
        injection h1 with h2 h3
        subst hp
        rw [← h2, ← h3]
        rfl
      · cases h
  | cons c rest ih =>
      intro pre post h
      rw [splitOnceAt] at h
      split at h
      · rename_i hpfx
        injection h with h1
        injection h1 with h2 h3
        obtain ⟨t, ht⟩ := (pfxOf_iff pat (c :: rest)).mp hpfx
        rw [← h2, ← h3, List.nil_append, ht, List.drop_left]
      · rename_i hpfx
        split at h
        · rename_i pre' post' hrec
          injection h with h1
          injection h1 with h2 h3
          rw [← h2, ← h3, ih pre' post' hrec]
          rfl
        · cases h

theorem splitOnceAt_leftmost (pat : List Char) :
    ∀ (l pre post : List Char), splitOnceAt pat l = some (pre, post) →
      ∀ a b, l = a ++ pat ++ b → pre.length ≤ a.length := by
  intro l
  induction l with
  | nil =>
      intro pre post h a b _hab
      rw [splitOnceAt] at h
      split at h
      · injection h with h1
        injection h1 with h2 h3
        rw [← h2]
        simp
      · cases h
  | cons c rest ih =>
      intro pre post h a b hab
      rw [splitOnceAt] at h
      split at h
      · injection h with h1
        injection h1 with h2 h3
        rw [← h2]
        simp
      · rename_i hpfx
        split at h
        · rename_i pre' post' hrec
          injection h with h1
          injection h1 with h2 h3
          cases a with
          | nil =>
              exfalso
              exact hpfx ((pfxOf_iff pat (c :: rest)).mpr ⟨b, by simpa using hab⟩)
          | cons a0 as =>
              injection hab with h4 h5
              have := ih pre' post' hrec as b h5
              rw [← h2]
              simpa using Nat.succ_le_succ this
        · cases h

theorem splitOnceAt_none (pat : List Char) :
    ∀ (l : List Char), splitOnceAt pat l = none →
      ∀ a b, l ≠ a ++ pat ++ b := by
  intro l
  induction l with
  | nil =>
      intro h a b hab
      rw [splitOnceAt] at h
      split at h
      · cases h
      · rename_i hp
        have := hab.symm
        simp only [List.append_eq_nil] at this
        exact hp this.1.2
  | cons c rest ih =>
      intro h a b hab
      rw [splitOnceAt] at h
      split at h
      · cases h
      · rename_i hpfx
        split at h
        · cases h
        · rename_i hrec
          cases a with
          | nil =>
              exact hpfx ((pfxOf_iff pat (c :: rest)).mpr ⟨b, by simpa using hab⟩)
          | cons a0 as =>
              injection hab with h4 h5
              exact ih hrec as b h5

theorem close_in_afterOpen (opn cls text pre0 afterOpen pre mid post : List Char)
    (hsplit : splitOnceAt opn text = some (pre0, afterOpen))
    (hdecomp : text = pre ++ opn ++ mid ++ cls ++ post) :
    ∃ a b, afterOpen = a ++ cls ++ b := by
  have h1 := splitOnceAt_eq opn text pre0 afterOpen hsplit
  have hlen : pre0.length ≤ pre.length :=
    splitOnceAt_leftmost opn text pre0 afterOpen hsplit pre (mid ++ cls ++ post)
      (by rw [hdecomp]; simp [List.append_assoc])
  have h2 : afterOpen = text.drop (pre0.length + opn.length) := by
    rw [h1]
    rw [show pre0.length + opn.length = (pre0 ++ opn).length by simp]
    rw [List.drop_left]
  have h3 : mid ++ cls ++ post = text.drop (pre.length + opn.length) := by
    rw [hdecomp]
    rw [show pre ++ opn ++ mid ++ cls ++ post =
        (pre ++ opn) ++ (mid ++ cls ++ post) by simp [List.append_assoc]]
    rw [show pre.length + opn.length = (pre ++ opn).length by simp]
    rw [List.drop_left]
  refine ⟨afterOpen.take (pre.length - pre0.length) ++ mid, post, ?_⟩
  have h4 : afterOpen.drop (pre.length - pre0.length) = mid ++ cls ++ post := by
    rw [h2, List.drop_drop]
    rw [show pre0.length + opn.length + (pre.length - pre0.length) =
        pre.length + opn.length by omega]
    rw [← h3]
  calc afterOpen
      = afterOpen.take (pre.length - pre0.length) ++
          afterOpen.drop (pre.length - pre0.length) :=
        (List.take_append_drop _ _).symm
    _ = afterOpen.take (pre.length - pre0.length) ++ (mid ++ cls ++ post) := by
        rw [h4]
    _ = afterOpen.take (pre.length - pre0.length) ++ mid ++ cls ++ post := by
        simp [List.append_assoc]

theorem dropWhile_pySpace_idem (l : List Char) :
    (l.dropWhile pySpace).dropWhile pySpace = l.dropWhile pySpace := by
  induction l with
  | nil => rfl
  | cons c rest ih =>
      by_cases h : pySpace c = true
      · simp [List.dropWhile_cons, h, ih]
      · simp [List.dropWhile_cons, h]

theorem dropTrailing_idem (l : List Char) :
    dropTrailing (dropTrailing l) = dropTrailing l := by
  induction l with
  | nil => rfl
  | cons c rest ih =>
      by_cases hr : dropTrailing rest = []
      · by_cases hc : pySpace c = true
        · simp [dropTrailing, hr, hc]
        · simp [dropTrailing, hr, hc]
      · by_cases hc : pySpace c = true
        · simp [dropTrailing, hr, hc, ih]
        · simp [dropTrailing, hr, hc, ih]

theorem dropTrailing_head (l : List Char) :
    dropTrailing l = [] ∨ (dropTrailing l).head? = l.head? := by
  cases l with
  | nil => exact Or.inl rfl
  | cons c rest =>
      rw [dropTrailing]
      by_cases h : (dropTrailing rest = [] ∧ pySpace c = true)
      · left
        simp [h.1, h.2]
      · right
        have : (decide (dropTrailing rest = []) && pySpace c) = false := by
          rcases Decidable.not_and_iff_or_not.mp h with h1 | h1 <;> simp [h1]
        simp [this]

theorem dropWhile_dropTrailing (l : List Char)
    (h : l.dropWhile pySpace = l) :
    (dropTrailing l).dropWhile pySpace = dropTrailing l := by
  rcases dropTrailing_head l with hnil | hhead
  · rw [hnil]
    rfl
  · cases hdt : dropTrailing l with
    | nil => rfl
    | cons c r =>
        rw [hdt] at hhead
        cases l with
        | nil => cases hdt
        | cons c0 rest =>
            simp only [List.head?_cons] at hhead
            injection hhead with hc
            subst hc
            have hpc : pySpace c = false := by
              by_cases hp : pySpace c = true
              · exfalso
                rw [List.dropWhile_cons, if_pos hp] at h
                have := congrArg List.length h
                simp at this
                have hle := (List.dropWhile_suffix (l := rest) pySpace).length_le
                omega
              · simpa using hp
            rw [List.dropWhile_cons, hpc]
            simp

theorem pyStrip_idem (l : List Char) : pyStrip (pyStrip l) = pyStrip l := by
  rw [pyStrip, pyStrip]
  rw [dropWhile_dropTrailing (l.dropWhile pySpace) (dropWhile_pySpace_idem l)]
  exact dropTrailing_idem _

theorem extractXmlContent_none_iff (text tag : List Char) :
    extractXmlContent text tag = none ↔
      ¬ ∃ pre mid post,
        text = pre ++ openTag tag ++ mid ++ closeTag tag ++ post := by
  rw [extractXmlContent]
  split
  · rename_i hsplit
    constructor
    · rintro _ ⟨pre, mid, post, hdecomp⟩
      exact splitOnceAt_none (openTag tag) text hsplit pre
        (mid ++ closeTag tag ++ post) (by rw [hdecomp]; simp [List.append_assoc])
    · intro _
      rfl
  · rename_i pre0 afterOpen hsplit
    split
    · rename_i hsplit2
      constructor
      · rintro _ ⟨pre, mid, post, hdecomp⟩
        obtain ⟨a, b, hab⟩ := close_in_afterOpen (openTag tag) (closeTag tag)
          text pre0 afterOpen pre mid post hsplit hdecomp
        exact splitOnceAt_none (closeTag tag) afterOpen hsplit2 a b hab
      · intro _
        rfl
    · rename_i mid0 post0 hsplit2
      constructor
      · intro hcontra
        cases hcontra
      · intro hno
        exfalso
        apply hno
        have h1 := splitOnceAt_eq _ _ _ _ hsplit
        have h2 := splitOnceAt_eq _ _ _ _ hsplit2
        exact ⟨pre0, mid0, post0, by rw [h1, h2]; simp [List.append_assoc]⟩

theorem extractXmlContent_some (text tag s : List Char)
    (h : extractXmlContent text tag = some s) :
    pyStrip s = s ∧
    ∃ pre mid post,
      text = pre ++ openTag tag ++ mid ++ closeTag tag ++ post ∧
      s = pyStrip mid ∧
      (∀ a b, text = a ++ openTag tag ++ b → pre.length ≤ a.length) ∧
      (∀ a b, mid ++ closeTag tag ++ post = a ++ closeTag tag ++ b →
        mid.length ≤ a.length) := by
  rw [extractXmlContent] at h
  split at h
  · cases h
  · rename_i pre0 afterOpen hsplit
    split at h
    · cases h
    · rename_i mid0 post0 hsplit2
      injection h with hs
      subst hs
      have h1 := splitOnceAt_eq _ _ _ _ hsplit
      have h2 := splitOnceAt_eq _ _ _ _ hsplit2
      refine ⟨pyStrip_idem mid0, pre0, mid0, post0,
        by rw [h1, h2]; simp [List.append_assoc], rfl, ?_, ?_⟩
      · intro a b hab
        exact splitOnceAt_leftmost _ _ _ _ hsplit a b hab
      · intro a b hab
        exact splitOnceAt_leftmost _ _ _ _ hsplit2 a b (h2.trans hab)

/-- **C10.** The delimiter-tag extraction used for `update_message`,
`thinking`, `current_plan` and `final_response`: `extract_xml_content`
returns `None` exactly when the text has no `<tag>...</tag>` pair; when it
returns a value, that value is the inner text of the *first* occurrence
(leftmost `<tag>`, then the first `</tag>` after it), with surrounding
whitespace stripped — in particular the result is strip-normal
(`pyStrip s = s`: no leading or trailing whitespace, even when the model
pads the tag content), so the END_TURN body text never carries surrounding
whitespace; and the four derived `AssistantMessage` fields are computed by
exactly this extraction. -/
theorem extract_xml_content_spec (text tag : List Char) :
    (extractXmlContent text tag = none ↔
      ¬ ∃ pre mid post,
        text = pre ++ openTag tag ++ mid ++ closeTag tag ++ post) ∧
    (∀ s, extractXmlContent text tag = some s →
      pyStrip s = s ∧
      ∃ pre mid post,
        text = pre ++ openTag tag ++ mid ++ closeTag tag ++ post ∧
        s = pyStrip mid ∧
        (∀ a b, text = a ++ openTag tag ++ b → pre.length ≤ a.length) ∧
        (∀ a b, mid ++ closeTag tag ++ post = a ++ closeTag tag ++ b →
          mid.length ≤ a.length)) ∧
    (∀ t : String,
      (assistantFromRaw [.text t]).final_response =
        extract_xml_content t "final_response" ∧
      (assistantFromRaw [.text t]).current_plan =
        extract_xml_content t "current_plan" ∧
      (assistantFromRaw [.text t]).thinking =
        extract_xml_content t "thinking" ∧
      (assistantFromRaw [.text t]).update_message =
        extract_xml_content t "update_message") :=
  ⟨extractXmlContent_none_iff text tag,
   fun s h => extractXmlContent_some text tag s h,
   fun _ => ⟨rfl, rfl, rfl, rfl⟩⟩

/-- Witness for C10's theorem at a concrete input. -/
theorem extract_xml_content_spec_witness :
    extractXmlContent "<a> hi </a>".data "a".data = some "hi".data ∧
    pyStrip "hi".data = "hi".data :=
  ⟨rfl,
   (((extract_xml_content_spec "<a> hi </a>".data "a".data).2.1
      "hi".data rfl)).1⟩

end ConverseAgent
